import Mathlib

/-!
Truct: native primitives of the build tool (`main.c`).

A shallow embedding of `truct__get_file_write_time`, `truct__hash_file` and
`truct__embed_file`, with the properties their specification states.

Modelling conventions.

* A byte is a `Fin 256`.  The `data` of a file is the list of bytes that a
  stream opened on it delivers to `fread`; the size that `fstat` reports and
  the position that `ftell` reports at the end of the stream are separate
  answers of the system and need not equal the number of bytes delivered.
* The C library is modelled by the small functions `fopen`, `fclose`, `fstat`,
  `fread`, `printf_d`, `printf_02x`; the file system, the error stream, the
  open streams of the process, the allocator and the global
  `temporary_buffer` are the fields of `World`, passed explicitly.
* `int` is 32 bits wide, `long` and `size_t` are 64 bits wide.  The `size_t`
  counters of `truct__hash_file` never exceed `st_size`, so they are kept in
  `Nat`; `uint32_t` and `uint64_t` arithmetic is reduced modulo `2^32`, `2^64`.
* A result `none` stands for a run with no defined result (a loop that does
  not end, or a read or write through a null pointer or a null stream).
* Bytes written to an open stream reach the file.
-/

namespace Truct

/-! ## Data model -/

abbrev Byte := Fin 256

/-- Bytes of an ASCII string literal. -/
def bytesOf (s : String) : List Byte :=
  s.toList.map (fun c => Fin.ofNat c.toNat)

/-- What a path names: the bytes a read stream delivers and the size that
`fstat` reports for it (`none` when `fstat` returns `-1`). -/
structure FileNode where
  data : List Byte
  st_size : Option Nat
  deriving DecidableEq

/-- Program-visible state: the file system, the error stream, the global
scratch buffer `temporary_buffer` (line 33), the streams held open and the
allocator. -/
structure World where
  /-- Lookup of a path for reading; `none` when the path cannot be opened. -/
  files : String → Option FileNode
  /-- Whether the path can be opened for writing. -/
  writable : String → Bool
  /-- Diagnostics printed so far. -/
  stderr : List String
  /-- Contents of the scratch buffer, by index. -/
  temporary_buffer : Nat → Byte
  /-- Number of streams the process holds open. -/
  openStreams : Nat
  /-- Number of streams the process may hold open at once. -/
  maxStreams : Nat
  /-- Value of `ftell` on a stream opened on the path, after
  `fseek(fp, 0, SEEK_END)`; `-1` when the position cannot be told. -/
  ftell_end : String → Int
  /-- Answer of `malloc` for a size: `none` for `NULL`, else the indeterminate
  content of the fresh block, by index. -/
  malloc : Nat → Option (Nat → Byte)

/-- Capacity of the scratch buffer (line 31). -/
def TEMPORARY_BUFFER_SIZE : Nat := 2 * 1024 * 1024

/-- Model of `fopen(filename, mode)` for the read modes `"r"` and `"rb"`: it
fails when the process has no stream left or the path cannot be opened.  A
caller that gets a stream continues in the world `opened w`. -/
def fopen (w : World) (filename : String) (_mode : String) : Option FileNode :=
  if w.openStreams < w.maxStreams then w.files filename else none

/-- The world after a successful `fopen`: one more stream is open. -/
def opened (w : World) : World :=
  { w with openStreams := w.openStreams + 1 }

/-- Model of `fclose`: one stream fewer is open. -/
def fclose (w : World) : World :=
  { w with openStreams := w.openStreams - 1 }

/-- Model of `fstat(fileno(file), &file_stats)`: the reported `st_size`, or
`none` for the return value `-1`. -/
def fstat (file : FileNode) : Option Nat :=
  file.st_size

/-- Model of `fprintf(stderr, ...)`. -/
def eprint (w : World) (msg : String) : World :=
  { w with stderr := w.stderr ++ [msg] }

/-! ## `truct__hash_file` (lines 74-107) -/

/-- Value of the expression `temporary_buffer[i]` after integer promotion: a
plain `char` holding a byte of 128 or more is negative where `char` is signed. -/
def charValue (charSigned : Bool) (c : Byte) : Int :=
  if charSigned ∧ 128 ≤ c.val then (c.val : Int) - 256 else (c.val : Int)

/-- Conversion of an `int` to `uint32_t`. -/
def toUInt32 (i : Int) : Nat :=
  (i % 4294967296).toNat

/-- Line 102: `hash = (temporary_buffer[i] ^ hash) * 0x01000193`. -/
def fnvStep (charSigned : Bool) (hash : Nat) (c : Byte) : Nat :=
  ((toUInt32 (charValue charSigned c) ^^^ hash) * 0x01000193) % 4294967296

/-- Model of `fread(buffer, 1, amount, file)`: the bytes available, at most
`amount`, overwrite the start of the buffer and leave the stream; the rest of
the buffer keeps its content. -/
def fread (buffer : Nat → Byte) (amount : Nat) (stream : List Byte) :
    (Nat → Byte) × List Byte :=
  (fun i => match (stream.take amount)[i]? with
            | some b => b
            | none => buffer i,
   stream.drop amount)

/-- Variables of the loop of `truct__hash_file`, with two counters that only
record how often `fread` and line 102 were executed. -/
structure HashLoop where
  buffer : Nat → Byte
  stream : List Byte
  done : Nat
  hash : Nat
  freads : Nat
  steps : Nat

/-- Lines 101-103: the `for` loop over the first `amount` buffer bytes. -/
def hashFor (charSigned : Bool) (buffer : Nat → Byte) (amount : Nat)
    (hash steps : Nat) : Nat × Nat :=
  (List.range amount).foldl
    (fun acc i => (fnvStep charSigned acc.1 (buffer i), acc.2 + 1)) (hash, steps)

/-- Lines 93-103: one iteration of the `while` loop, for buffer capacity `C`.
The return value of `fread` is not looked at. -/
def hashChunk (C : Nat) (charSigned : Bool) (length : Nat) (s : HashLoop) : HashLoop :=
  let amount := length - s.done
  let amount := if amount > C then C else amount
  let r := fread s.buffer amount s.stream
  let done := s.done + amount
  let hs := hashFor charSigned r.1 amount s.hash s.steps
  { buffer := r.1, stream := r.2, done := done, hash := hs.1,
    freads := s.freads + 1, steps := hs.2 }

/-- Lines 92-104: `while (done < length)`, run for at most `fuel` iterations;
`none` when the loop has not ended by then. -/
def hashWhile (C : Nat) (charSigned : Bool) (length : Nat) : Nat → HashLoop → Option HashLoop
  | 0, s => if s.done < length then none else some s
  | fuel + 1, s =>
    if s.done < length then hashWhile C charSigned length fuel (hashChunk C charSigned length s)
    else some s

/-- What a call of `truct__hash_file` leaves behind: the returned digest, the
world, and the two execution counters. -/
structure HashOutcome where
  digest : Nat
  world : World
  freads : Nat
  steps : Nat

/-- The function `truct__hash_file` with the buffer capacity as a parameter.
The loop is given `length` iterations, which is enough whenever `C ≥ 1`
(every iteration then advances `done`).  No path of the function closes the
stream it opened at line 76, so after a successful `fopen` the world returned
has one more stream open. -/
def hash_file_with (C : Nat) (charSigned : Bool) (w : World) (filename : String) :
    Option HashOutcome :=
  match fopen w filename "r" with
  | none =>
    some { digest := 0, world := eprint w ("Could not read file: " ++ filename ++ "\n"),
           freads := 0, steps := 0 }
  | some file =>
    let w := opened w
    match fstat file with
    | none =>
      some { digest := 0,
             world := eprint w ("Could not figure out file size: " ++ filename ++ "\n"),
             freads := 0, steps := 0 }
    | some st_size =>
      let length := st_size
      match hashWhile C charSigned length length
          { buffer := w.temporary_buffer, stream := file.data, done := 0,
            hash := 0x811C9DC5, freads := 0, steps := 0 } with
      | none => none
      | some s =>
        some { digest := s.hash, world := { w with temporary_buffer := s.buffer },
               freads := s.freads, steps := s.steps }

/-- Lines 74-107. -/
def truct__hash_file (charSigned : Bool) (w : World) (filename : String) :
    Option HashOutcome :=
  hash_file_with TEMPORARY_BUFFER_SIZE charSigned w filename

/-- One more call of `truct__hash_file` on the same path after `n` earlier
calls in the same process, each started in the world the previous one left. -/
def hashAgain (charSigned : Bool) (filename : String) : Nat → World → Option HashOutcome
  | 0, w => truct__hash_file charSigned w filename
  | n + 1, w =>
    match truct__hash_file charSigned w filename with
    | none => none
    | some r => hashAgain charSigned filename n r.world

/-- FNV-1a-32 as the specification words it: state `0x811C9DC5`, then for each
byte `state := ((state XOR b) * 0x01000193) mod 2^32`. -/
def fnv1a32 (S : List Byte) : Nat :=
  S.foldl (fun state b => ((state ^^^ b.val) * 0x01000193) % 2 ^ 32) 0x811C9DC5

/-- A world in which every path names the file with bytes `S`, its size
reported correctly, and whose scratch buffer holds `fill` everywhere.  Three
streams are open (the standard ones) out of 1024. -/
def worldOf (S : List Byte) (fill : Byte) : World :=
  { files := fun _ => some { data := S, st_size := some S.length },
    writable := fun _ => true,
    stderr := [],
    temporary_buffer := fun _ => fill,
    openStreams := 3,
    maxStreams := 1024,
    ftell_end := fun _ => (S.length : Int),
    malloc := fun _ => some (fun _ => 0) }

/-- A world in which every path names a file whose stream delivers `S` while
`fstat` reports the size `size`, and whose scratch buffer holds `fill`
everywhere. -/
def worldShort (S : List Byte) (size : Nat) (fill : Byte) : World :=
  { files := fun _ => some { data := S, st_size := some size },
    writable := fun _ => true,
    stderr := [],
    temporary_buffer := fun _ => fill,
    openStreams := 3,
    maxStreams := 1024,
    ftell_end := fun _ => (size : Int),
    malloc := fun _ => some (fun _ => 0) }

/-! ## `truct__get_file_write_time` (lines 46-72) -/

/-- Conversion of a signed integer to `uint64_t`. -/
def toUInt64 (i : Int) : Nat :=
  (i % 18446744073709551616).toNat

/-- The Windows `FILETIME`: the two 32-bit halves of a tick count. -/
structure FILETIME where
  dwLowDateTime : Nat
  dwHighDateTime : Nat

/-- The `FILETIME` that Windows stores for a 64-bit count of 100 ns ticks:
low-order and high-order 32 bits. -/
def FILETIME.ofTicks (ticks : Nat) : FILETIME :=
  { dwLowDateTime := ticks % 4294967296, dwHighDateTime := ticks / 4294967296 % 4294967296 }

/-- The member `QuadPart` of the `ULARGE_INTEGER` with the given `LowPart` and `HighPart`
(lines 55-56). -/
def QuadPart (LowPart HighPart : Nat) : Nat :=
  ((HighPart <<< 32) ||| LowPart) % 18446744073709551616

/-- Answers of the Windows calls made by the `_WIN32` branch. -/
structure Win32 where
  /-- Result of `CreateFileA`: `none` for `INVALID_HANDLE_VALUE`, else a handle. -/
  CreateFileA : String → Option Nat
  /-- Result of `GetFileTime` on a handle: `none` when it returns `FALSE`. -/
  GetFileTime : Nat → Option FILETIME

/-- Lines 48-66, the `_WIN32` branch: the returned time and the error stream. -/
def truct__get_file_write_time_win32 (os : Win32) (stderr : List String)
    (filename : String) : Nat × List String :=
  let time := 0
  match os.CreateFileA filename with
  | some file =>
    match os.GetFileTime file with
    | some last_write => (QuadPart last_write.dwLowDateTime last_write.dwHighDateTime, stderr)
    | none => (time, stderr ++ ["Cannot get file time from: " ++ filename])
  | none => (time, stderr ++ ["Cannot get file! " ++ filename])

/-- The field `st_mtim` of `struct stat`. -/
structure timespec where
  tv_sec : Int
  tv_nsec : Int

/-- Model of `stat(filename, &s)`: on success returns `0` and stores the
modification time; on failure returns `-1` and leaves `s` as it was.  `os`
gives the modification time of the paths it can stat. -/
def stat (os : String → Option timespec) (filename : String) (s : timespec) :
    Int × timespec :=
  match os filename with
  | some mtim => (0, mtim)
  | none => (-1, s)

/-- Lines 68-70, the POSIX branch.  `s` is the content of the local variable
`s` before the call of `stat`: it is declared without an initialiser. -/
def truct__get_file_write_time_posix (os : String → Option timespec) (filename : String)
    (s : timespec) : Nat :=
  let r := stat os filename s
  let s := r.2
  ((toUInt64 s.tv_sec * 1000000000) % 18446744073709551616 + toUInt64 s.tv_nsec)
    % 18446744073709551616

/-! ## `truct__embed_file` (lines 109-135) -/

/-- Conversion of a `long` to `int` (line 117): wrap to 32 bits, two's
complement. -/
def toInt32 (n : Int) : Int :=
  (n + 2147483648) % 4294967296 - 2147483648

/-- Conversion of an `int` to `size_t` (the arguments of `malloc` and `fread`
at lines 120 and 122). -/
def toSizeT (i : Int) : Nat :=
  (i % 18446744073709551616).toNat

/-- The digit that `printf` writes for a value below 16 under `%d` and `%x`:
`'0'` to `'9'`, then `'a'` to `'f'`. -/
def hexDigit (d : Nat) : Byte :=
  if d < 10 then Fin.ofNat (48 + d) else Fin.ofNat (87 + d)

/-- Output of the conversion `%02x` for an `unsigned char`. -/
def printf_02x (b : Byte) : List Byte :=
  [hexDigit (b.val / 16), hexDigit (b.val % 16)]

/-- Decimal digits of a natural number, most significant first; `fuel` bounds
the number of digits. -/
def decimalFuel : Nat → Nat → List Byte
  | 0, _ => []
  | fuel + 1, n =>
    if n < 10 then [hexDigit n] else decimalFuel fuel (n / 10) ++ [hexDigit (n % 10)]

/-- Output of the conversion `%d` for an `int`. -/
def printf_d (i : Int) : List Byte :=
  if i < 0 then bytesOf "-" ++ decimalFuel ((-i).toNat + 1) (-i).toNat
  else decimalFuel (i.toNat + 1) i.toNat

/-- Lines 129-131: one `fprintf(out, "0x%02x%s", b[i], ...)`, appended to the
bytes written so far. -/
def embedEntry (b : Nat → Byte) (fsize : Int) (out : List Byte) (i : Nat) : List Byte :=
  out ++ bytesOf "0x" ++ printf_02x (b i) ++
    (if (i : Int) = fsize - 1 then bytesOf ""
     else if ((i : Int) + 1) % 16 = 0 then bytesOf ",\n" else bytesOf ",")

/-- Lines 126-133: everything written to `out`, for the block `b` and the
length `fsize`.  The loop runs for `i = 0, ..., fsize - 1`, not at all when
`fsize ≤ 0`. -/
def embedOutput (b : Nat → Byte) (fsize : Int) : List Byte :=
  let out := bytesOf "enum \x7b FILE_SIZE = " ++ printf_d fsize ++ bytesOf " \x7d;\n"
  let out := out ++ bytesOf "static const unsigned char FILE_DATA[] = \x7b\n"
  let out := (List.range fsize.toNat).foldl (embedEntry b fsize) out
  out ++ bytesOf "\n\x7d;\n"

/-- Lines 120-122: `b = malloc(fsize); fread(b, fsize, 1, fp)`, with `size`
the value of `fsize` as a `size_t`.  The result is the content of the block
after the read (`some none` when `b` is `NULL` and nothing was stored), or
`none` when bytes are stored through `NULL`.  The bytes of the block that the
read does not reach keep their indeterminate content. -/
def mallocRead (block : Option (Nat → Byte)) (size : Nat) (stream : List Byte) :
    Option (Option (Nat → Byte)) :=
  match block with
  | some content => some (some (fread content size stream).1)
  | none => if stream.take size = [] then some none else none

/-- Lines 126-133 for a pointer `b` that may be `NULL`: the loop reads `b[i]`
when `0 < fsize`, which has no defined result for `NULL`; when `fsize ≤ 0`
the loop does not run and `b` is not read. -/
def embedWrite (b : Option (Nat → Byte)) (fsize : Int) : Option (List Byte) :=
  match b with
  | some content => some (embedOutput content fsize)
  | none => if 0 < fsize then none else some (embedOutput (fun _ => 0) fsize)

/-- Lines 109-135.  The result of `fseek` and `ftell` is not checked: `fsize`
is whatever `ftell` returns, narrowed to `int`.  Printing to an output stream
that could not be opened has no defined result. -/
def truct__embed_file (w : World) (input output : String) : Option World :=
  match fopen w input "rb" with
  | none => some (eprint w ("Error opening file: " ++ input ++ "\n"))
  | some fp =>
    let w := opened w
    let fsize : Int := toInt32 (w.ftell_end input)
    match mallocRead (w.malloc (toSizeT fsize)) (toSizeT fsize) fp.data with
    | none => none
    | some b =>
      let w := fclose w
      if w.writable output = true ∧ w.openStreams < w.maxStreams then
        let w := opened w
        match embedWrite b fsize with
        | none => none
        | some out =>
          let w := fclose w
          some { w with
                 files := fun p =>
                   if p = output then some { data := out, st_size := some out.length }
                   else w.files p,
                 ftell_end := fun p =>
                   if p = output then (out.length : Int) else w.ftell_end p }
      else none

/-! ## Reading back the generated text -/

/-- Consume the literal `p` at the start of the input. -/
def expect : List Byte → List Byte → Option (List Byte)
  | [], rest => some rest
  | _ :: _, [] => none
  | p :: ps, c :: cs => if p = c then expect ps cs else none

/-- Value of a hexadecimal digit. -/
def hexVal (c : Byte) : Option Nat :=
  if 48 ≤ c.val ∧ c.val ≤ 57 then some (c.val - 48)
  else if 97 ≤ c.val ∧ c.val ≤ 102 then some (c.val - 87)
  else if 65 ≤ c.val ∧ c.val ≤ 70 then some (c.val - 55)
  else none

/-- Read decimal digits while there are some; returns the number read and the
rest of the input. -/
def parseNat : Nat → List Byte → Nat × List Byte
  | acc, [] => (acc, [])
  | acc, c :: cs =>
    if 48 ≤ c.val ∧ c.val ≤ 57 then parseNat (acc * 10 + (c.val - 48)) cs
    else (acc, c :: cs)

/-- Read a decimal numeral: the single digit `0`, or a digit from `1` to `9`
followed by any digits. -/
def parseDecimal : List Byte → Option (Nat × List Byte)
  | [] => none
  | c :: cs =>
    if c.val = 48 then some (0, cs)
    else if 49 ≤ c.val ∧ c.val ≤ 57 then some (parseNat (c.val - 48) cs)
    else none

/-- Read a decimal integer with an optional minus sign. -/
def parseInt : List Byte → Option (Int × List Byte)
  | [] => none
  | c :: cs =>
    if c.val = 45 then
      match parseDecimal cs with
      | none => none
      | some r => some (-(r.1 : Int), r.2)
    else
      match parseDecimal (c :: cs) with
      | none => none
      | some r => some ((r.1 : Int), r.2)

/-- Where the reader of the array body stands: before the first entry, after
an entry, after the comma that follows an entry, after the line break that
follows such a comma. -/
inductive BodyState where
  | start
  | afterEntry
  | afterComma
  | afterBreak
  deriving DecidableEq

/-- Read the array body up to and including the closing line: entries are
`0x` and two hexadecimal digits, two entries are separated by a comma or by a
comma and a line break, and the body ends with a line break and `\x7d;`. -/
def parseEntries : BodyState → List Byte → Option (List Byte)
  | _, [] => none
  | st, c :: cs =>
    if c.val = 10 then
      match st with
      | BodyState.start => if cs = bytesOf "\x7d;\n" then some [] else none
      | BodyState.afterEntry => if cs = bytesOf "\x7d;\n" then some [] else none
      | BodyState.afterComma => parseEntries BodyState.afterBreak cs
      | BodyState.afterBreak => none
    else if c.val = 44 then
      match st with
      | BodyState.afterEntry => parseEntries BodyState.afterComma cs
      | _ => none
    else if c.val = 48 then
      if st = BodyState.afterEntry then none
      else
        match cs with
        | x :: h :: l :: rest =>
          if x.val = 120 then
            match hexVal h, hexVal l, parseEntries BodyState.afterEntry rest with
            | some hv, some lv, some tail => some (Fin.ofNat (hv * 16 + lv) :: tail)
            | _, _, _ => none
          else none
        | _ => none
    else none

/-- Read a generated file: the integer of the `FILE_SIZE` declaration and the
bytes of the `FILE_DATA` array literal. -/
def parseEmbedded (text : List Byte) : Option (Int × List Byte) :=
  match expect (bytesOf "enum \x7b FILE_SIZE = ") text with
  | none => none
  | some r1 =>
    match parseInt r1 with
    | none => none
    | some r2 =>
      match expect (bytesOf " \x7d;\nstatic const unsigned char FILE_DATA[] = \x7b\n") r2.2 with
      | none => none
      | some r3 =>
        match parseEntries BodyState.start r3 with
        | none => none
        | some bytes => some (r2.1, bytes)

/-! ## The generated text as the specification words it -/

/-- The two lowercase hexadecimal digits of a byte, looked up in the digit
string. -/
def specHex (b : Byte) : List Byte :=
  [(bytesOf "0123456789abcdef").getD (b.val / 16) 0,
   (bytesOf "0123456789abcdef").getD (b.val % 16) 0]

/-- The entries of the array body: entry number `i` (counted from 0) is `0x`
and two lowercase hexadecimal digits; every entry but the last is followed by
a comma, and that comma by a line break exactly when `i + 1` is a multiple of
16. -/
def specEntries : Nat → List Byte → List Byte
  | _, [] => []
  | _, [b] => bytesOf "0x" ++ specHex b
  | i, b :: b' :: rest =>
    bytesOf "0x" ++ specHex b ++ bytesOf "," ++
      (if (i + 1) % 16 = 0 then bytesOf "\n" else []) ++ specEntries (i + 1) (b' :: rest)

/-- The whole text for an input with bytes `data`; the length is written as
its decimal numeral. -/
def specText (data : List Byte) : List Byte :=
  bytesOf ("enum \x7b FILE_SIZE = " ++ Nat.repr data.length ++ " \x7d;\n") ++
    bytesOf "static const unsigned char FILE_DATA[] = \x7b\n" ++
    specEntries 0 data ++ bytesOf "\n\x7d;\n"

/-- A world with the single input file `name`, whose stream delivers `data`
and whose end position is `pos`; every path can be opened for writing, three
streams are open out of 1024, and `malloc` succeeds. -/
def worldSeek (name : String) (data : List Byte) (pos : Int) : World :=
  { files := fun p => if p = name then some { data := data, st_size := some data.length }
                      else none,
    writable := fun _ => true,
    stderr := [],
    temporary_buffer := fun _ => 0,
    openStreams := 3,
    maxStreams := 1024,
    ftell_end := fun p => if p = name then pos else -1,
    malloc := fun _ => some (fun _ => 0) }

/-- A world with the single regular input file `name` holding `data`. -/
def worldWith (name : String) (data : List Byte) : World :=
  worldSeek name data (data.length : Int)

/-- The round trip of the specification: the call returns, and reading the
output file gives the input's length and bytes back. -/
def RoundTrips (w : World) (input output : String) (data : List Byte) : Prop :=
  ∃ w' node, truct__embed_file w input output = some w' ∧ w'.files output = some node ∧
    parseEmbedded node.data = some ((data.length : Int), data)

/-- The output format of the specification: the call returns, and the output
file holds exactly the specification text for the input's bytes. -/
def WritesSpecText (w : World) (input output : String) (data : List Byte) : Prop :=
  ∃ w' node, truct__embed_file w input output = some w' ∧ w'.files output = some node ∧
    node.data = specText data

/-- A world without any file. -/
def emptyWorld : World :=
  { files := fun _ => none,
    writable := fun _ => true,
    stderr := [],
    temporary_buffer := fun _ => 0,
    openStreams := 3,
    maxStreams := 1024,
    ftell_end := fun _ => -1,
    malloc := fun _ => some (fun _ => 0) }

/-! ## Lemmas on the hashing loop -/

theorem hashFor_eq (charSigned : Bool) (buffer : Nat → Byte) (amount hash steps : Nat) :
    hashFor charSigned buffer amount hash steps =
      (((List.range amount).map buffer).foldl (fnvStep charSigned) hash, steps + amount) := by
  unfold hashFor
  induction amount with
  | zero => simp
  | succ n ih =>
    rw [List.range_succ, List.foldl_append, ih]
    simp [List.foldl_append, Nat.add_assoc]

theorem fread_fst_map_range (buffer : Nat → Byte) (amount : Nat) (stream : List Byte)
    (h : amount ≤ stream.length) :
    (List.range amount).map (fread buffer amount stream).1 = stream.take amount := by
  apply List.ext_getElem
  · simp [h]
  · intro i h1 h2
    simp only [List.length_map, List.length_range] at h1
    simp [fread, List.getElem?_take, h1, List.getElem?_eq_getElem (Nat.lt_of_lt_of_le h1 h)]

/-- The `while` loop, started with `done` bytes consumed and the rest of a
file of `length` bytes still in the stream, ends within `length - done`
iterations and folds exactly the unread bytes into the hash. -/
theorem hashWhile_spec (C : Nat) (charSigned : Bool) (length : Nat) (hC : 1 ≤ C) :
    ∀ (fuel : Nat) (s : HashLoop), s.done + s.stream.length = length →
      length - s.done ≤ fuel →
      ∃ s', hashWhile C charSigned length fuel s = some s' ∧
        s'.hash = s.stream.foldl (fnvStep charSigned) s.hash ∧
        s'.steps = s.steps + s.stream.length := by
  intro fuel
  induction fuel with
  | zero =>
    intro s hlen hfuel
    have h0 : s.stream.length = 0 := by omega
    have hnil : s.stream = [] := List.length_eq_zero.mp h0
    refine ⟨s, ?_, ?_, ?_⟩
    · simp only [hashWhile]
      rw [if_neg (by omega)]
    · simp [hnil]
    · simp [hnil]
  | succ fuel ih =>
    intro s hlen hfuel
    by_cases hd : s.done < length
    · have hamt : (if length - s.done > C then C else length - s.done) ≤ s.stream.length := by
        split <;> omega
      have hpos : 1 ≤ (if length - s.done > C then C else length - s.done) := by
        split <;> omega
      obtain ⟨s', hrun, hhash, hsteps⟩ := ih (hashChunk C charSigned length s)
        (by simp only [hashChunk, fread, List.length_drop]; omega)
        (by simp only [hashChunk]; omega)
      refine ⟨s', ?_, ?_, ?_⟩
      · simp only [hashWhile]
        rw [if_pos hd]
        exact hrun
      · rw [hhash]
        simp only [hashChunk, hashFor_eq]
        rw [fread_fst_map_range _ _ _ hamt]
        simp only [fread]
        rw [← List.foldl_append, List.take_append_drop]
      · rw [hsteps]
        simp only [hashChunk, hashFor_eq, fread, List.length_drop]
        omega
    · have h0 : s.stream.length = 0 := by omega
      have hnil : s.stream = [] := List.length_eq_zero.mp h0
      refine ⟨s, ?_, ?_, ?_⟩
      · simp only [hashWhile]
        rw [if_neg hd]
      · simp [hnil]
      · simp [hnil]

/-- For a file that opens and whose size is reported correctly, a call with any
capacity `C ≥ 1` returns, and its digest is the fold of line 102 over the
bytes of the file.  The world returned has the same files and one more open
stream. -/
theorem hash_file_with_digest (C : Nat) (charSigned : Bool) (w : World) (filename : String)
    (file : FileNode) (hC : 1 ≤ C) (hopen : fopen w filename "r" = some file)
    (hsize : fstat file = some file.data.length) :
    ∃ r, hash_file_with C charSigned w filename = some r ∧
      r.digest = file.data.foldl (fnvStep charSigned) 0x811C9DC5 ∧
      r.steps = file.data.length ∧
      r.world.files = w.files ∧ r.world.openStreams = w.openStreams + 1 ∧
      r.world.maxStreams = w.maxStreams := by
  obtain ⟨s', hrun, hhash, hsteps⟩ := hashWhile_spec C charSigned file.data.length hC
    file.data.length
    { buffer := w.temporary_buffer, stream := file.data, done := 0,
      hash := 0x811C9DC5, freads := 0, steps := 0 } (by simp) (by simp)
  refine ⟨{ digest := s'.hash, world := { opened w with temporary_buffer := s'.buffer },
            freads := s'.freads, steps := s'.steps }, ?_, ?_, ?_, rfl, rfl, rfl⟩
  · have hbuf : (opened w).temporary_buffer = w.temporary_buffer := rfl
    simp only [hash_file_with, hopen, hsize, hbuf, hrun]
  · exact hhash
  · simpa using hsteps

theorem fopen_of_room (w : World) (filename mode : String) (h : w.openStreams < w.maxStreams) :
    fopen w filename mode = w.files filename := by
  simp only [fopen, if_pos h]

theorem fopen_of_full (w : World) (filename mode : String) (h : ¬ w.openStreams < w.maxStreams) :
    fopen w filename mode = none := by
  simp only [fopen, if_neg h]

theorem room_of_fopen (w : World) (filename mode : String) (fp : FileNode)
    (h : fopen w filename mode = some fp) : w.openStreams < w.maxStreams := by
  by_cases hlt : w.openStreams < w.maxStreams
  · exact hlt
  · rw [fopen_of_full w filename mode hlt] at h
    exact absurd h (by simp)

/-- Repeated calls on one path whose file does not change and whose size is
reported correctly: as long as a stream is left the call returns the fold of
line 102 over the bytes; the call made when `n` earlier calls have used up the
streams returns `0`. -/
theorem hashAgain_spec (charSigned : Bool) (filename : String) (file : FileNode)
    (hsize : fstat file = some file.data.length) :
    ∀ (n : Nat) (w : World), w.files filename = some file →
      (w.openStreams + n < w.maxStreams →
        Option.map HashOutcome.digest (hashAgain charSigned filename n w)
          = some (file.data.foldl (fnvStep charSigned) 0x811C9DC5)) ∧
      (w.openStreams + n = w.maxStreams →
        Option.map HashOutcome.digest (hashAgain charSigned filename n w) = some 0) := by
  intro n
  induction n with
  | zero =>
    intro w hfile
    constructor
    · intro hlt
      have hopen : fopen w filename "r" = some file := by
        rw [fopen_of_room w filename "r" (by omega), hfile]
      obtain ⟨r, hr, hd, _⟩ := hash_file_with_digest TEMPORARY_BUFFER_SIZE charSigned w
        filename file (by decide) hopen hsize
      simp only [hashAgain, truct__hash_file, hr, Option.map_some', hd]
    · intro heq
      have hopen : fopen w filename "r" = none := fopen_of_full w filename "r" (by omega)
      simp only [hashAgain, truct__hash_file, hash_file_with, hopen, Option.map_some']
  | succ n ih =>
    intro w hfile
    have hstep : w.openStreams < w.maxStreams →
        ∃ r, truct__hash_file charSigned w filename = some r ∧
          r.world.files filename = some file ∧
          r.world.openStreams = w.openStreams + 1 ∧ r.world.maxStreams = w.maxStreams := by
      intro hlt
      have hopen : fopen w filename "r" = some file := by
        rw [fopen_of_room w filename "r" hlt, hfile]
      obtain ⟨r, hr, _, _, hf, ho, hm⟩ := hash_file_with_digest TEMPORARY_BUFFER_SIZE
        charSigned w filename file (by decide) hopen hsize
      exact ⟨r, hr, by rw [hf, hfile], ho, hm⟩
    constructor
    · intro hlt
      obtain ⟨r, hr, hf, ho, hm⟩ := hstep (by omega)
      simp only [hashAgain, hr]
      exact (ih r.world hf).1 (by omega)
    · intro heq
      obtain ⟨r, hr, hf, ho, hm⟩ := hstep (by omega)
      simp only [hashAgain, hr]
      exact (ih r.world hf).2 (by omega)

/-- With an unsigned `char`, line 102 is the FNV-1a step. -/
theorem fnvStep_unsigned (hash : Nat) (c : Byte) :
    fnvStep false hash c = ((hash ^^^ c.val) * 0x01000193) % 2 ^ 32 := by
  have h : toUInt32 (charValue false c) = c.val := by
    simp only [toUInt32, charValue]
    have := c.isLt
    simp
    omega
  simp only [fnvStep, h, Nat.xor_comm]
  norm_num

/-- For a byte below 128 the signedness of `char` makes no difference. -/
theorem fnvStep_low (charSigned : Bool) (hash : Nat) (c : Byte) (hc : c.val < 128) :
    fnvStep charSigned hash c = fnvStep false hash c := by
  simp only [fnvStep, charValue]
  rw [if_neg (by omega), if_neg (by simp)]

/-! ## Lemmas on the generated text -/

theorem bytesOf_0x : bytesOf "0x" = [48, 120] := by decide

theorem bytesOf_comma : bytesOf "," = [44] := by decide

theorem bytesOf_comma_nl : bytesOf ",\n" = [44, 10] := by decide

theorem bytesOf_nl : bytesOf "\n" = [10] := by decide

theorem bytesOf_empty : bytesOf "" = [] := by decide

theorem bytesOf_close : bytesOf "\n\x7d;\n" = [10, 125, 59, 10] := by decide

theorem bytesOf_append (s t : String) : bytesOf (s ++ t) = bytesOf s ++ bytesOf t := by
  simp [bytesOf, String.toList]

/-- The `%02x` digits are the lowercase digits of the specification. -/
theorem printf_02x_eq_specHex (b : Byte) : printf_02x b = specHex b := by
  have h : ∀ d, d < 16 → hexDigit d = (bytesOf "0123456789abcdef").getD d 0 := by
    intro d hd
    interval_cases d <;> decide
  have hb := b.isLt
  simp only [printf_02x, specHex]
  rw [h _ (by omega), h _ (Nat.mod_lt _ (by decide))]

theorem digitChar_byte (d : Nat) (h : d < 10) :
    (Fin.ofNat (Nat.digitChar d).toNat : Byte) = hexDigit d := by
  interval_cases d <;> decide

theorem toDigitsCore_bytes : ∀ (fuel n : Nat) (ds : List Char),
    (Nat.toDigitsCore 10 fuel n ds).map (fun c => (Fin.ofNat c.toNat : Byte))
      = decimalFuel fuel n ++ ds.map (fun c => (Fin.ofNat c.toNat : Byte)) := by
  intro fuel
  induction fuel with
  | zero => intro n ds; simp [Nat.toDigitsCore, decimalFuel]
  | succ fuel ih =>
    intro n ds
    have hd := digitChar_byte (n % 10) (Nat.mod_lt _ (by decide))
    by_cases h10 : n < 10
    · have hq : n / 10 = 0 := by omega
      have hm : n % 10 = n := by omega
      rw [hm] at hd
      simp [Nat.toDigitsCore, decimalFuel, h10, hq, hm, hd]
    · have hq : ¬ (n / 10 = 0) := by omega
      simp [Nat.toDigitsCore, decimalFuel, h10, hq, ih, hd]

/-- The `%d` output for a length is its decimal numeral. -/
theorem printf_d_eq_repr (n : Nat) : printf_d (n : Int) = bytesOf (Nat.repr n) := by
  have hnn : ¬ ((n : Int) < 0) := by omega
  have h := toDigitsCore_bytes (n + 1) n []
  simp only [List.map_nil, List.append_nil] at h
  simp only [printf_d, if_neg hnn, Int.toNat_ofNat, bytesOf, Nat.repr, Nat.toDigits,
    String.toList, List.asString]
  exact h.symm

theorem embedOutput_congr (b b' : Nat → Byte) (fsize : Int)
    (h : ∀ i, i < fsize.toNat → b i = b' i) : embedOutput b fsize = embedOutput b' fsize := by
  simp only [embedOutput]
  congr 1
  apply List.foldl_ext
  intro out i hi
  simp only [embedEntry, h i (List.mem_range.mp hi)]

/-- The loop of lines 128-132, from index `k` on, over a block that holds the
bytes `data`, writes the entries that the specification lists for the bytes
from position `k` on. -/
theorem embed_fold_range' (b : Nat → Byte) (data : List Byte) (fsize : Int)
    (hb : ∀ (i : Nat) (h : i < data.length), b i = data[i]) :
    ∀ (m k : Nat) (out : List Byte), data.length = k + m → fsize = ((k + m : Nat) : Int) →
      (List.range' k m).foldl (embedEntry b fsize) out
        = out ++ specEntries k (data.drop k) := by
  intro m
  induction m with
  | zero =>
    intro k out hlen _
    have hdrop : data.drop k = [] := List.drop_eq_nil_of_le (by omega)
    simp [hdrop, specEntries]
  | succ m ih =>
    intro k out hlen hf
    have hk : k < data.length := by omega
    rw [List.range'_succ, List.foldl_cons, ih (k + 1) _ (by omega) (by rw [hf]; congr 1; omega)]
    rw [List.drop_eq_getElem_cons hk]
    have hget : b k = data[k] := hb k hk
    cases m with
    | zero =>
      have hdrop : data.drop (k + 1) = [] := List.drop_eq_nil_of_le (by omega)
      have hlast : (k : Int) = fsize - 1 := by rw [hf]; push_cast; omega
      simp only [hdrop, specEntries, embedEntry, hget, if_pos hlast, bytesOf_empty,
        List.append_nil, List.append_assoc, printf_02x_eq_specHex]
    | succ m =>
      have hk1 : k + 1 < data.length := by omega
      have hnot : ¬ ((k : Int) = fsize - 1) := by rw [hf]; push_cast; omega
      rw [List.drop_eq_getElem_cons hk1]
      simp only [specEntries, embedEntry, hget, if_neg hnot, List.append_assoc,
        printf_02x_eq_specHex]
      by_cases h16 : (k + 1) % 16 = 0
      · have h16i : ((k : Int) + 1) % 16 = 0 := by omega
        simp [h16, h16i, bytesOf_comma_nl, bytesOf_comma, bytesOf_nl]
      · have h16i : ¬ (((k : Int) + 1) % 16 = 0) := by omega
        simp [h16, h16i, bytesOf_comma]

theorem toInt32_small (n : Nat) (h : n < 2147483648) : toInt32 (n : Int) = (n : Int) := by
  unfold toInt32
  omega

theorem toSizeT_natCast (n : Nat) (h : n < 2147483648) : toSizeT (n : Int) = n := by
  unfold toSizeT
  omega

/-- For a block holding the bytes of the input and `fsize` equal to their
number, lines 126-133 write the text of the specification. -/
theorem embedOutput_eq_specText (b : Nat → Byte) (data : List Byte)
    (hb : ∀ (i : Nat) (h : i < data.length), b i = data[i]) :
    embedOutput b (data.length : Int) = specText data := by
  simp only [embedOutput, specText, Int.toNat_ofNat, List.range_eq_range', bytesOf_append,
    printf_d_eq_repr]
  rw [embed_fold_range' b data (data.length : Int) hb data.length 0 _ (by simp) (by simp)]
  simp

/-- After `fread` of `n` bytes from a stream that delivers exactly `n` bytes,
the block holds these bytes. -/
theorem fread_block (content : Nat → Byte) (data : List Byte) :
    ∀ (i : Nat) (h : i < data.length), (fread content data.length data).1 i = data[i] := by
  intro i h
  simp [fread, List.getElem?_eq_getElem h]

/-! ## Lemmas on reading the text back -/

theorem expect_append (p rest : List Byte) : expect p (p ++ rest) = some rest := by
  induction p with
  | nil => cases rest <;> rfl
  | cons a p ih => simp [expect, ih]

theorem hexDigit_lt_ten (d : Nat) (h : d < 10) : (hexDigit d).val = 48 + d := by
  interval_cases d <;> decide

theorem hexVal_specDigit (d : Nat) (h : d < 16) :
    hexVal ((bytesOf "0123456789abcdef").getD d 0) = some d := by
  interval_cases d <;> decide

theorem parseNat_digits (ds : List Byte) :
    ∀ (acc : Nat) (rest : List Byte), (∀ d ∈ ds, 48 ≤ d.val ∧ d.val ≤ 57) →
      (∀ c ∈ rest.head?, ¬ (48 ≤ c.val ∧ c.val ≤ 57)) →
      parseNat acc (ds ++ rest) =
        (ds.foldl (fun a d => a * 10 + (d.val - 48)) acc, rest) := by
  induction ds with
  | nil =>
    intro acc rest _ hrest
    cases rest with
    | nil => rfl
    | cons c cs =>
      have hc := hrest c (by simp)
      simp only [List.nil_append, parseNat, if_neg hc, List.foldl_nil]
  | cons d ds ih =>
    intro acc rest hds hrest
    have hd := hds d (by simp)
    simp only [List.cons_append, parseNat, if_pos hd, List.foldl_cons]
    exact ih _ rest (fun x hx => hds x (by simp [hx])) hrest

/-- The digits written for `n` are decimal digits, and read as a decimal number
they give `n` back; the first digit is `0` only for `n = 0`. -/
theorem decimalFuel_spec : ∀ (fuel n : Nat), n < fuel →
    (∀ d ∈ decimalFuel fuel n, 48 ≤ d.val ∧ d.val ≤ 57) ∧
    (decimalFuel fuel n).foldl (fun a d => a * 10 + (d.val - 48)) 0 = n ∧
    ∃ c cs, decimalFuel fuel n = c :: cs ∧ (c.val = 48 → n = 0) := by
  intro fuel
  induction fuel with
  | zero => intro n h; omega
  | succ fuel ih =>
    intro n h
    by_cases h10 : n < 10
    · have hv := hexDigit_lt_ten n h10
      simp only [decimalFuel, if_pos h10]
      refine ⟨?_, ?_, hexDigit n, [], rfl, ?_⟩
      · intro d hd
        rw [List.mem_singleton] at hd
        rw [hd, hv]
        omega
      · simp only [List.foldl_cons, List.foldl_nil, hv]
        omega
      · intro h0
        omega
    · obtain ⟨hdig, hval, c, cs, hcs, hc0⟩ := ih (n / 10) (by omega)
      have hv := hexDigit_lt_ten (n % 10) (Nat.mod_lt _ (by decide))
      simp only [decimalFuel, if_neg h10]
      refine ⟨?_, ?_, c, cs ++ [hexDigit (n % 10)], by rw [hcs]; rfl, ?_⟩
      · intro d hd
        rw [List.mem_append, List.mem_singleton] at hd
        rcases hd with hd | hd
        · exact hdig d hd
        · rw [hd, hv]
          omega
      · rw [List.foldl_append, hval]
        simp only [List.foldl_cons, List.foldl_nil, hv]
        omega
      · intro h0
        have := hc0 h0
        omega

/-- Reading back the `%d` output for a length, when a non-digit follows. -/
theorem parseInt_printf_d (n : Nat) (rest : List Byte)
    (hrest : ∀ c ∈ rest.head?, ¬ (48 ≤ c.val ∧ c.val ≤ 57)) :
    parseInt (printf_d (n : Int) ++ rest) = some ((n : Int), rest) := by
  obtain ⟨hdig, hval, c, cs, hcs, hc0⟩ := decimalFuel_spec (n + 1) n (by omega)
  have hnn : ¬ ((n : Int) < 0) := by omega
  simp only [printf_d, if_neg hnn, Int.toNat_ofNat, hcs, List.cons_append]
  rw [hcs] at hdig hval
  have hcd := hdig c (by simp)
  have hc : ¬ (c.val = 45) := by omega
  simp only [parseInt, if_neg hc, parseDecimal]
  by_cases h48 : c.val = 48
  · have hn := hc0 h48
    subst hn
    have hnil : cs = [] := by
      have hone : decimalFuel (0 + 1) 0 = [hexDigit 0] := by simp [decimalFuel]
      rw [hone] at hcs
      exact (List.cons.inj hcs).2.symm
    simp [h48, hnil]
  · have h49 : 49 ≤ c.val ∧ c.val ≤ 57 := by omega
    have hrun := parseNat_digits cs (c.val - 48) rest
      (fun d hd => hdig d (by simp [hd])) hrest
    simp only [List.foldl_cons, Nat.zero_mul, Nat.zero_add] at hval
    rw [hval] at hrun
    simp only [if_neg h48, if_pos h49, hrun]

theorem byte_of_nibbles (b : Byte) : (Fin.ofNat (b.val / 16 * 16 + b.val % 16) : Byte) = b := by
  apply Fin.ext
  have h : b.val / 16 * 16 + b.val % 16 = b.val := by omega
  rw [h]
  exact Nat.mod_eq_of_lt b.isLt

theorem parseEntries_entry (st : BodyState) (hst : st ≠ BodyState.afterEntry) (b : Byte)
    (rest : List Byte) :
    parseEntries st (bytesOf "0x" ++ specHex b ++ rest) =
      (parseEntries BodyState.afterEntry rest).map (fun tail => b :: tail) := by
  have hh := hexVal_specDigit (b.val / 16) (by have := b.isLt; omega)
  have hl := hexVal_specDigit (b.val % 16) (Nat.mod_lt _ (by decide))
  simp only [bytesOf_0x, specHex, List.cons_append, List.nil_append]
  rw [parseEntries.eq_def]
  simp only [if_neg (show ¬ ((48 : Byte).val = 10) by decide),
    if_neg (show ¬ ((48 : Byte).val = 44) by decide),
    if_pos (show (48 : Byte).val = 48 by decide),
    if_pos (show (120 : Byte).val = 120 by decide), if_neg hst, hh, hl]
  cases parseEntries BodyState.afterEntry rest <;> simp [byte_of_nibbles]

theorem parseEntries_comma (rest : List Byte) :
    parseEntries BodyState.afterEntry (bytesOf "," ++ rest)
      = parseEntries BodyState.afterComma rest := by
  simp only [bytesOf_comma, List.cons_append, List.nil_append]
  rw [parseEntries.eq_def]
  simp only [if_neg (show ¬ ((44 : Byte).val = 10) by decide),
    if_pos (show (44 : Byte).val = 44 by decide)]

theorem parseEntries_nl (rest : List Byte) :
    parseEntries BodyState.afterComma (bytesOf "\n" ++ rest)
      = parseEntries BodyState.afterBreak rest := by
  simp only [bytesOf_nl, List.cons_append, List.nil_append]
  rw [parseEntries.eq_def]
  simp only [if_pos (show (10 : Byte).val = 10 by decide)]

theorem parseEntries_close_start :
    parseEntries BodyState.start (bytesOf "\n\x7d;\n") = some [] := by
  decide

theorem parseEntries_close_afterEntry :
    parseEntries BodyState.afterEntry (bytesOf "\n\x7d;\n") = some [] := by
  decide

/-- Reading a non-empty array body of the specification text, from any place
where an entry may start, gives the bytes back. -/
theorem parseEntries_specEntries : ∀ (data : List Byte) (i : Nat) (st : BodyState),
    data ≠ [] → st ≠ BodyState.afterEntry →
    parseEntries st (specEntries i data ++ bytesOf "\n\x7d;\n") = some data := by
  intro data
  induction data with
  | nil => intro i st h; exact absurd rfl h
  | cons b rest ih =>
    intro i st _ hst
    cases rest with
    | nil =>
      simp only [specEntries]
      rw [parseEntries_entry st hst, parseEntries_close_afterEntry]
      rfl
    | cons b' rest =>
      simp only [specEntries, List.append_assoc]
      rw [← List.append_assoc (bytesOf "0x"), parseEntries_entry st hst, parseEntries_comma]
      by_cases h16 : (i + 1) % 16 = 0
      · rw [if_pos h16, parseEntries_nl,
          ih (i + 1) BodyState.afterBreak (by simp) (by decide)]
        rfl
      · rw [if_neg h16, List.nil_append,
          ih (i + 1) BodyState.afterComma (by simp) (by decide)]
        rfl

/-- Reading the specification text for `data` gives its length and its bytes. -/
theorem parseEmbedded_specText (data : List Byte) :
    parseEmbedded (specText data) = some ((data.length : Int), data) := by
  have hsp : ∀ c ∈ (bytesOf " \x7d;\nstatic const unsigned char FILE_DATA[] = \x7b\n" ++
      (specEntries 0 data ++ bytesOf "\n\x7d;\n")).head?, ¬ (48 ≤ c.val ∧ c.val ≤ 57) := by
    intro c hc
    have h0 : bytesOf " \x7d;\nstatic const unsigned char FILE_DATA[] = \x7b\n" =
        32 :: (bytesOf " \x7d;\nstatic const unsigned char FILE_DATA[] = \x7b\n").tail := by
      decide
    rw [h0] at hc
    simp only [List.cons_append, List.head?_cons, Option.mem_def, Option.some.injEq] at hc
    rw [← hc]
    decide
  have hjoin : bytesOf " \x7d;\n" ++ bytesOf "static const unsigned char FILE_DATA[] = \x7b\n" =
      bytesOf " \x7d;\nstatic const unsigned char FILE_DATA[] = \x7b\n" := by decide
  have htext : specText data = bytesOf "enum \x7b FILE_SIZE = " ++
      (printf_d (data.length : Int) ++
        (bytesOf " \x7d;\nstatic const unsigned char FILE_DATA[] = \x7b\n" ++
          (specEntries 0 data ++ bytesOf "\n\x7d;\n"))) := by
    simp only [specText, bytesOf_append, printf_d_eq_repr, List.append_assoc]
    rw [← List.append_assoc (bytesOf " \x7d;\n"), hjoin]
  have hbody : parseEntries BodyState.start (specEntries 0 data ++ bytesOf "\n\x7d;\n")
      = some data := by
    cases data with
    | nil => exact parseEntries_close_start
    | cons b rest =>
      exact parseEntries_specEntries (b :: rest) 0 BodyState.start (by simp) (by decide)
  simp only [parseEmbedded]
  rw [htext, expect_append]
  simp only [parseInt_printf_d _ _ hsp, expect_append, hbody]

/-! ## Further lemmas -/

/-- With an unsigned `char` the fold of line 102 is FNV-1a-32. -/
theorem foldl_fnvStep_unsigned (S : List Byte) :
    S.foldl (fnvStep false) 0x811C9DC5 = fnv1a32 S := by
  have h : fnvStep false = fun state (b : Byte) => ((state ^^^ b.val) * 0x01000193) % 2 ^ 32 := by
    funext hash c
    exact fnvStep_unsigned hash c
  rw [h, fnv1a32]

/-- The call of `truct__embed_file` when the input opens, lines 120-122 leave
the block `b`, the loop over it writes `out`, and the output opens: the
output path then holds `out`, and nothing else changes. -/
theorem embed_file_run (w : World) (input output : String) (fp : FileNode)
    (b : Option (Nat → Byte)) (out : List Byte)
    (hopen : fopen w input "rb" = some fp)
    (hread : mallocRead (w.malloc (toSizeT (toInt32 (w.ftell_end input))))
      (toSizeT (toInt32 (w.ftell_end input))) fp.data = some b)
    (hloop : embedWrite b (toInt32 (w.ftell_end input)) = some out)
    (hout : w.writable output = true) :
    truct__embed_file w input output =
      some { w with
             files := fun p =>
               if p = output then some { data := out, st_size := some out.length }
               else w.files p,
             ftell_end := fun p =>
               if p = output then (out.length : Int) else w.ftell_end p } := by
  have hlt := room_of_fopen w input "rb" fp hopen
  have hcond : (fclose (opened w)).writable output = true ∧
      (fclose (opened w)).openStreams < (fclose (opened w)).maxStreams := by
    refine ⟨hout, ?_⟩
    simp only [fclose, opened]
    omega
  have hf : (opened w).ftell_end input = w.ftell_end input := rfl
  have hm : (opened w).malloc = w.malloc := rfl
  simp only [truct__embed_file, hopen, hf, hm, hread, if_pos hcond, hloop]
  simp [fclose, opened]

/-- The bytes found at the output path after a call in which `malloc` gave a
block. -/
theorem embed_file_output_data (w w' : World) (input output : String) (fp node : FileNode)
    (content : Nat → Byte) (fsize : Int)
    (hopen : fopen w input "rb" = some fp) (hfs : toInt32 (w.ftell_end input) = fsize)
    (hmalloc : w.malloc (toSizeT fsize) = some content)
    (hout : w.writable output = true) (hrun : truct__embed_file w input output = some w')
    (hfile : w'.files output = some node) :
    node.data = embedOutput (fread content (toSizeT fsize) fp.data).1 fsize := by
  subst hfs
  rw [embed_file_run w input output fp (some (fread content _ fp.data).1) _ hopen
    (by rw [hmalloc]; rfl) rfl hout] at hrun
  have hw := Option.some.inj hrun
  rw [← hw] at hfile
  simp only [if_true] at hfile
  rw [← Option.some.inj hfile]

/-- An input of `n < 2^31` bytes whose end position is `n` is written as the
specification text, when the block is allocated and the output opens. -/
theorem writesSpecText_of_small (w : World) (input output : String) (fp : FileNode)
    (hopen : fopen w input "rb" = some fp)
    (hseek : w.ftell_end input = (fp.data.length : Int))
    (hlen : fp.data.length < 2147483648)
    (hmalloc : 0 < fp.data.length → (w.malloc fp.data.length).isSome = true)
    (hout : w.writable output = true) :
    WritesSpecText w input output fp.data := by
  have hfs : toInt32 (w.ftell_end input) = (fp.data.length : Int) := by
    rw [hseek, toInt32_small _ hlen]
  have hsz : toSizeT (fp.data.length : Int) = fp.data.length := toSizeT_natCast _ hlen
  have key : ∃ b out, mallocRead (w.malloc (toSizeT (toInt32 (w.ftell_end input))))
        (toSizeT (toInt32 (w.ftell_end input))) fp.data = some b ∧
      embedWrite b (toInt32 (w.ftell_end input)) = some out ∧ out = specText fp.data := by
    rw [hfs, hsz]
    cases hm : w.malloc fp.data.length with
    | none =>
      have hzero : fp.data.length = 0 := by
        by_contra hne
        have := hmalloc (by omega)
        rw [hm] at this
        exact absurd this (by simp)
      have hnil : fp.data = [] := List.length_eq_zero.mp hzero
      refine ⟨none, _, ?_, ?_, embedOutput_eq_specText (fun _ => 0) fp.data ?_⟩
      · simp [mallocRead, hnil]
      · simp [embedWrite, hzero]
      · intro i h
        omega
    | some content =>
      exact ⟨some (fread content fp.data.length fp.data).1, _, rfl, rfl,
        embedOutput_eq_specText _ fp.data (fread_block content fp.data)⟩
  obtain ⟨b, out, hread, hloop, hspec⟩ := key
  refine ⟨_, { data := out, st_size := some out.length },
    embed_file_run w input output fp b out hopen hread hloop hout, ?_, hspec⟩
  simp only [if_true]

theorem fopen_worldSeek (name : String) (data : List Byte) (pos : Int) (mode : String) :
    fopen (worldSeek name data pos) name mode
      = some { data := data, st_size := some data.length } := by
  simp [fopen, worldSeek]

theorem fopen_worldWith (name : String) (data : List Byte) (mode : String) :
    fopen (worldWith name data) name mode
      = some { data := data, st_size := some data.length } :=
  fopen_worldSeek name data _ mode

theorem ftell_end_worldSeek (name : String) (data : List Byte) (pos : Int) :
    (worldSeek name data pos).ftell_end name = pos := by
  simp [worldSeek]

/-- Where the stream delivers fewer bytes than `st_size` announces (here three
bytes for a size of four, as a text stream that turns CR LF into LF does for
the file `a CR LF b`), the loop also hashes a byte left in the scratch buffer
by earlier calls: the digest changes with that byte. -/
theorem hash_short_stream_reads_stale_buffer :
    Option.map HashOutcome.digest (truct__hash_file true (worldShort [0x61, 0x0A, 0x62] 4 0) "f")
        = some 1881497136 ∧
      Option.map HashOutcome.digest
        (truct__hash_file true (worldShort [0x61, 0x0A, 0x62] 4 99) "f") = some 3542481417 := by
  decide

theorem QuadPart_ofTicks (ticks : Nat) (h : ticks < 18446744073709551616) :
    QuadPart (FILETIME.ofTicks ticks).dwLowDateTime (FILETIME.ofTicks ticks).dwHighDateTime
      = ticks := by
  have hlow : ticks % 4294967296 < 2 ^ 32 := Nat.mod_lt _ (by norm_num)
  have hor := Nat.mul_add_lt_is_or hlow (ticks / 4294967296 % 4294967296)
  simp only [QuadPart, FILETIME.ofTicks, Nat.shiftLeft_eq]
  rw [Nat.mul_comm, ← hor]
  norm_num
  omega

theorem posix_time_of_stat (os : String → Option timespec) (filename : String)
    (s m : timespec) (h : os filename = some m) (hsec : 0 ≤ m.tv_sec) (hnsec : 0 ≤ m.tv_nsec)
    (hfit : m.tv_sec * 1000000000 + m.tv_nsec < 18446744073709551616) :
    (truct__get_file_write_time_posix os filename s : Int)
      = m.tv_sec * 1000000000 + m.tv_nsec := by
  simp only [truct__get_file_write_time_posix, stat, h, toUInt64]
  omega

/-- The `_WIN32` branch returns `0` when the file cannot be opened or its time
cannot be read. -/
theorem win32_failure_returns_zero (os : Win32) (stderr : List String) (filename : String)
    (h : os.CreateFileA filename = none ∨
      ∃ file, os.CreateFileA filename = some file ∧ os.GetFileTime file = none) :
    (truct__get_file_write_time_win32 os stderr filename).1 = 0 := by
  rcases h with h | ⟨file, h, h'⟩
  · simp [truct__get_file_write_time_win32, h]
  · simp [truct__get_file_write_time_win32, h, h']

/-- Where `char` is unsigned, the digest of a file that opens with its size
reported correctly is its FNV-1a-32 digest. -/
theorem hash_file_unsigned_fnv1a32 (w : World) (filename : String) (file : FileNode)
    (hopen : fopen w filename "r" = some file) (hsize : fstat file = some file.data.length) :
    Option.map HashOutcome.digest (truct__hash_file false w filename)
      = some (fnv1a32 file.data) := by
  obtain ⟨r, hr, hd, _⟩ := hash_file_with_digest TEMPORARY_BUFFER_SIZE false w filename file
    (by decide) hopen hsize
  rw [truct__hash_file, hr, Option.map_some', hd, foldl_fnvStep_unsigned]

/-- Whatever the signedness of `char`, the digest of such a file is its
FNV-1a-32 digest when all its bytes are below 128. -/
theorem hash_file_low_bytes_fnv1a32 (charSigned : Bool) (w : World) (filename : String)
    (file : FileNode) (hopen : fopen w filename "r" = some file)
    (hsize : fstat file = some file.data.length) (hlow : ∀ b ∈ file.data, b.val < 128) :
    Option.map HashOutcome.digest (truct__hash_file charSigned w filename)
      = some (fnv1a32 file.data) := by
  obtain ⟨r, hr, hd, _⟩ := hash_file_with_digest TEMPORARY_BUFFER_SIZE charSigned w filename
    file (by decide) hopen hsize
  have hfold : file.data.foldl (fnvStep charSigned) 0x811C9DC5
      = file.data.foldl (fnvStep false) 0x811C9DC5 :=
    List.foldl_ext _ _ _ (fun a b hb => fnvStep_low charSigned a b (hlow b hb))
  rw [truct__hash_file, hr, Option.map_some', hd, hfold, foldl_fnvStep_unsigned]

/-- A single call that gets a stream, on a file whose size is reported
correctly, returns a digest that depends on the bytes of the file only: two
such calls in any two worlds, on files with the same bytes, agree. -/
theorem hash_single_call_depends_on_bytes_only (charSigned : Bool) (w1 w2 : World)
    (filename1 filename2 : String) (file1 file2 : FileNode)
    (hopen1 : fopen w1 filename1 "r" = some file1)
    (hopen2 : fopen w2 filename2 "r" = some file2)
    (hsize1 : fstat file1 = some file1.data.length)
    (hsize2 : fstat file2 = some file2.data.length)
    (hsame : file1.data = file2.data) :
    Option.map HashOutcome.digest (truct__hash_file charSigned w1 filename1)
        = Option.map HashOutcome.digest (truct__hash_file charSigned w2 filename2) := by
  obtain ⟨r1, hr1, hd1, _⟩ := hash_file_with_digest TEMPORARY_BUFFER_SIZE charSigned w1
    filename1 file1 (by decide) hopen1 hsize1
  obtain ⟨r2, hr2, hd2, _⟩ := hash_file_with_digest TEMPORARY_BUFFER_SIZE charSigned w2
    filename2 file2 (by decide) hopen2 hsize2
  simp only [truct__hash_file, hr1, hr2, Option.map_some', hd1, hd2, hsame]

/-! ## The claims -/

/-- C1: evaluation of `truct__hash_file` where `char` is signed, on the file
whose single byte is `0x80`: the call returns `0x04F3B29F`, whereas the
FNV-1a-32 digest of that byte is `0x850B939F`.  The byte is sign-extended
before the XOR of line 102. -/
theorem C1_hash_file_signed_char_high_byte :
    Option.map HashOutcome.digest (truct__hash_file true (worldOf [0x80] 0) "f")
        = some 0x04F3B29F ∧
      fnv1a32 [0x80] = 0x850B939F ∧
      Option.map HashOutcome.digest (truct__hash_file false (worldOf [0x80] 0) "f")
        = some 0x850B939F := by
  decide

/-- C2: for every file that opens with its size reported correctly and every
buffer capacity `C ≥ 1`, the chunked loop returns the digest obtained by
folding all bytes in one pass; hence every other capacity `C' ≥ 1` returns
the same digest. -/
theorem C2_hash_chunk_size_independent (C : Nat) (charSigned : Bool) (w : World)
    (filename : String) (file : FileNode) (hC : 1 ≤ C)
    (hopen : fopen w filename "r" = some file) (hsize : fstat file = some file.data.length) :
    Option.map HashOutcome.digest (hash_file_with C charSigned w filename)
        = some (file.data.foldl (fnvStep charSigned) 0x811C9DC5) ∧
      ∀ C', 1 ≤ C' →
        Option.map HashOutcome.digest (hash_file_with C' charSigned w filename)
          = Option.map HashOutcome.digest (hash_file_with C charSigned w filename) := by
  have key : ∀ K, 1 ≤ K →
      Option.map HashOutcome.digest (hash_file_with K charSigned w filename)
        = some (file.data.foldl (fnvStep charSigned) 0x811C9DC5) := by
    intro K hK
    obtain ⟨r, hr, hd, _⟩ := hash_file_with_digest K charSigned w filename file hK hopen hsize
    rw [hr, Option.map_some', hd]
  refine ⟨key C hC, ?_⟩
  intro C' hC'
  rw [key C' hC', key C hC]

/-- C2 at a concrete input: the bytes 1, 2, 3 hashed through a buffer of two bytes. -/
theorem C2_hash_chunk_size_independent_witness :
    1 ≤ 2 ∧
      fopen (worldOf [1, 2, 3] 0) "f" "r" = some { data := [1, 2, 3], st_size := some 3 } ∧
      fstat { data := [1, 2, 3], st_size := some 3 } = some 3 ∧
      Option.map HashOutcome.digest (hash_file_with 2 true (worldOf [1, 2, 3] 0) "f")
        = some (([1, 2, 3] : List Byte).foldl (fnvStep true) 0x811C9DC5) ∧
      ∀ C', 1 ≤ C' →
        Option.map HashOutcome.digest (hash_file_with C' true (worldOf [1, 2, 3] 0) "f")
          = Option.map HashOutcome.digest (hash_file_with 2 true (worldOf [1, 2, 3] 0) "f") :=
  ⟨by decide, rfl, rfl,
    C2_hash_chunk_size_independent 2 true (worldOf [1, 2, 3] 0) "f"
      { data := [1, 2, 3], st_size := some 3 } (by decide) rfl rfl⟩

/-- C3 (as stated) fails at two inputs.  For an input of `2^32` bytes the call
returns, but the output declares `FILE_SIZE = 0`.  For a file of six bytes
whose end position is reported as `0` (as for the files of the proc file
system) the call returns, but the output again declares `FILE_SIZE = 0` and
lists no byte.  In both cases the round trip does not hold. -/
theorem C3_round_trip_fails :
    ¬ RoundTrips (worldWith "big.bin" (List.replicate 4294967296 0)) "big.bin" "out.h"
        (List.replicate 4294967296 0) ∧
      ¬ RoundTrips (worldSeek "ostype" (bytesOf "Linux\n") 0) "ostype" "out.h"
        (bytesOf "Linux\n") := by
  have hzero : ∀ b : Nat → Byte, parseEmbedded (embedOutput b 0) = some (0, []) := by
    intro b
    rw [embedOutput_congr b (fun _ => 0) 0 (fun i hi => absurd hi (Nat.not_lt_zero i))]
    decide
  constructor
  · rintro ⟨w', node, hrun, hfile, hparse⟩
    have hopen := fopen_worldWith "big.bin" (List.replicate 4294967296 (0 : Byte)) "rb"
    have hfs : toInt32 ((worldWith "big.bin" (List.replicate 4294967296 (0 : Byte))).ftell_end
        "big.bin") = 0 := by
      rw [worldWith, ftell_end_worldSeek, List.length_replicate]
      decide
    have hdata := embed_file_output_data _ w' _ _ _ node (fun _ => 0) 0 hopen hfs rfl rfl
      hrun hfile
    rw [hdata, hzero, List.length_replicate] at hparse
    have h := congrArg Prod.fst (Option.some.inj hparse)
    exact absurd h (by decide)
  · rintro ⟨w', node, hrun, hfile, hparse⟩
    have hopen := fopen_worldSeek "ostype" (bytesOf "Linux\n") 0 "rb"
    have hfs : toInt32 ((worldSeek "ostype" (bytesOf "Linux\n") 0).ftell_end "ostype") = 0 := by
      rw [ftell_end_worldSeek]
      decide
    have hdata := embed_file_output_data _ w' _ _ _ node (fun _ => 0) 0 hopen hfs rfl rfl
      hrun hfile
    rw [hdata, hzero] at hparse
    have h := congrArg Prod.fst (Option.some.inj hparse)
    exact absurd h (by decide)

/-- C3 (amended): for every input that opens, delivers `n < 2^31` bytes and has
its end position reported as `n`, when the block of `n` bytes is allocated
and the output can be opened, the call returns and reading the output back
gives the exact number of bytes of the input and its bytes in order. -/
theorem C3_round_trip_below_2GiB (w : World) (input output : String) (fp : FileNode)
    (hopen : fopen w input "rb" = some fp)
    (hseek : w.ftell_end input = (fp.data.length : Int))
    (hlen : fp.data.length < 2147483648)
    (hmalloc : 0 < fp.data.length → (w.malloc fp.data.length).isSome = true)
    (hout : w.writable output = true) :
    RoundTrips w input output fp.data := by
  obtain ⟨w', node, hrun, hfile, hdata⟩ :=
    writesSpecText_of_small w input output fp hopen hseek hlen hmalloc hout
  refine ⟨w', node, hrun, hfile, ?_⟩
  rw [hdata]
  exact parseEmbedded_specText fp.data

/-- C3 (amended) at a concrete input: the bytes 0, 127, 255. -/
theorem C3_round_trip_below_2GiB_witness :
    fopen (worldWith "a.bin" [0, 127, 255]) "a.bin" "rb"
        = some { data := [0, 127, 255], st_size := some 3 } ∧
      (worldWith "a.bin" [0, 127, 255]).ftell_end "a.bin"
        = (([0, 127, 255] : List Byte).length : Int) ∧
      ([0, 127, 255] : List Byte).length < 2147483648 ∧
      (0 < ([0, 127, 255] : List Byte).length →
        ((worldWith "a.bin" [0, 127, 255]).malloc ([0, 127, 255] : List Byte).length).isSome
          = true) ∧
      (worldWith "a.bin" [0, 127, 255]).writable "a.h" = true ∧
      RoundTrips (worldWith "a.bin" [0, 127, 255]) "a.bin" "a.h" [0, 127, 255] :=
  ⟨fopen_worldWith "a.bin" [0, 127, 255] "rb", ftell_end_worldSeek "a.bin" [0, 127, 255] _,
    by decide, fun _ => rfl, rfl,
    C3_round_trip_below_2GiB (worldWith "a.bin" [0, 127, 255]) "a.bin" "a.h"
      { data := [0, 127, 255], st_size := some 3 }
      (fopen_worldWith "a.bin" [0, 127, 255] "rb")
      (ftell_end_worldSeek "a.bin" [0, 127, 255] _) (by decide) (fun _ => rfl) rfl⟩

/-- C4 (as stated) fails at two inputs.  For an input of `2^32 + 1` bytes the
call returns, but the output declares `FILE_SIZE = 1` and lists one entry.
For a file of four bytes whose end position is reported as `0` the call
returns, but the output declares `FILE_SIZE = 0` and lists no entry.  Neither
output is the specification text for its input. -/
theorem C4_format_fails :
    ¬ WritesSpecText (worldWith "big.bin" (List.replicate 4294967297 0)) "big.bin" "out.h"
        (List.replicate 4294967297 0) ∧
      ¬ WritesSpecText (worldSeek "version" (bytesOf "6.1\n") 0) "version" "out.h"
        (bytesOf "6.1\n") := by
  constructor
  · rintro ⟨w', node, hrun, hfile, hdata⟩
    have hopen := fopen_worldWith "big.bin" (List.replicate 4294967297 (0 : Byte)) "rb"
    have hfs : toInt32 ((worldWith "big.bin" (List.replicate 4294967297 (0 : Byte))).ftell_end
        "big.bin") = 1 := by
      rw [worldWith, ftell_end_worldSeek, List.length_replicate]
      decide
    have hout := embed_file_output_data _ w' _ _ _ node (fun _ => 0) 1 hopen hfs rfl rfl
      hrun hfile
    have hblock : embedOutput
        (fread (fun _ => 0) (toSizeT 1) (List.replicate 4294967297 (0 : Byte))).1 1
        = embedOutput (fun _ => 0) 1 := by
      apply embedOutput_congr
      intro i _
      have hsz : toSizeT 1 = 1 := by decide
      have htake : List.take 1 (List.replicate 4294967297 (0 : Byte)) = [0] := by
        rw [List.take_replicate]
        rfl
      simp only [fread, hsz, htake]
      cases i <;> rfl
    have hone : parseEmbedded (embedOutput (fun _ => 0) 1) = some (1, [0]) := by decide
    have hspec := parseEmbedded_specText (List.replicate 4294967297 (0 : Byte))
    rw [← hdata, hout, hblock, hone, List.length_replicate] at hspec
    have h := congrArg Prod.fst (Option.some.inj hspec)
    exact absurd h (by decide)
  · rintro ⟨w', node, hrun, hfile, hdata⟩
    have hopen := fopen_worldSeek "version" (bytesOf "6.1\n") 0 "rb"
    have hfs : toInt32 ((worldSeek "version" (bytesOf "6.1\n") 0).ftell_end "version") = 0 := by
      rw [ftell_end_worldSeek]
      decide
    have hout := embed_file_output_data _ w' _ _ _ node (fun _ => 0) 0 hopen hfs rfl rfl
      hrun hfile
    have hblock : embedOutput (fread (fun _ => 0) (toSizeT 0) (bytesOf "6.1\n")).1 0
        = embedOutput (fun _ => 0) 0 :=
      embedOutput_congr _ _ 0 (fun i hi => absurd hi (Nat.not_lt_zero i))
    rw [hout, hblock] at hdata
    exact absurd hdata (by decide)

/-- C4 (amended): for every input that opens, delivers `n < 2^31` bytes and has
its end position reported as `n`, when the block of `n` bytes is allocated
and the output can be opened, the output file holds exactly the specification
text; for `n = 0` that text declares `FILE_SIZE = 0` and has an empty array
body. -/
theorem C4_format_below_2GiB (w : World) (input output : String) (fp : FileNode)
    (hopen : fopen w input "rb" = some fp)
    (hseek : w.ftell_end input = (fp.data.length : Int))
    (hlen : fp.data.length < 2147483648)
    (hmalloc : 0 < fp.data.length → (w.malloc fp.data.length).isSome = true)
    (hout : w.writable output = true) :
    WritesSpecText w input output fp.data ∧
      specText [] = bytesOf
        "enum \x7b FILE_SIZE = 0 \x7d;\nstatic const unsigned char FILE_DATA[] = \x7b\n\n\x7d;\n" :=
  ⟨writesSpecText_of_small w input output fp hopen hseek hlen hmalloc hout, by decide⟩

/-- C4 (amended) at a concrete input: the bytes 171, 205. -/
theorem C4_format_below_2GiB_witness :
    fopen (worldWith "b.bin" [171, 205]) "b.bin" "rb"
        = some { data := [171, 205], st_size := some 2 } ∧
      (worldWith "b.bin" [171, 205]).ftell_end "b.bin"
        = (([171, 205] : List Byte).length : Int) ∧
      ([171, 205] : List Byte).length < 2147483648 ∧
      (0 < ([171, 205] : List Byte).length →
        ((worldWith "b.bin" [171, 205]).malloc ([171, 205] : List Byte).length).isSome
          = true) ∧
      (worldWith "b.bin" [171, 205]).writable "b.h" = true ∧
      WritesSpecText (worldWith "b.bin" [171, 205]) "b.bin" "b.h" [171, 205] ∧
      specText [] = bytesOf
        "enum \x7b FILE_SIZE = 0 \x7d;\nstatic const unsigned char FILE_DATA[] = \x7b\n\n\x7d;\n" :=
  ⟨fopen_worldWith "b.bin" [171, 205] "rb", ftell_end_worldSeek "b.bin" [171, 205] _,
    by decide, fun _ => rfl, rfl,
    C4_format_below_2GiB (worldWith "b.bin" [171, 205]) "b.bin" "b.h"
      { data := [171, 205], st_size := some 2 }
      (fopen_worldWith "b.bin" [171, 205] "rb")
      (ftell_end_worldSeek "b.bin" [171, 205] _) (by decide) (fun _ => rfl) rfl⟩

/-- C5: for a file whose content is the three bytes `0x61, 0x62, 0x63`, with its
size reported as 3, `truct__hash_file` returns `0x1A47E90B`, the FNV-1a-32
digest of these bytes, whether `char` is signed or unsigned and whatever the
scratch buffer held. -/
theorem C5_hash_abc (charSigned : Bool) (w : World) (filename : String)
    (hopen : fopen w filename "r" = some { data := [0x61, 0x62, 0x63], st_size := some 3 }) :
    Option.map HashOutcome.digest (truct__hash_file charSigned w filename) = some 0x1A47E90B ∧
      fnv1a32 [0x61, 0x62, 0x63] = 0x1A47E90B := by
  obtain ⟨r, hr, hd, _⟩ := hash_file_with_digest TEMPORARY_BUFFER_SIZE charSigned w filename
    { data := [0x61, 0x62, 0x63], st_size := some 3 } (by decide) hopen rfl
  refine ⟨?_, by decide⟩
  rw [truct__hash_file, hr, Option.map_some', hd]
  cases charSigned <;> decide

/-- C5 at a concrete input: signed characters and a scratch buffer filled with 255. -/
theorem C5_hash_abc_witness :
    fopen (worldOf [0x61, 0x62, 0x63] 255) "abc.txt" "r"
        = some { data := [0x61, 0x62, 0x63], st_size := some 3 } ∧
      Option.map HashOutcome.digest
        (truct__hash_file true (worldOf [0x61, 0x62, 0x63] 255) "abc.txt") = some 0x1A47E90B ∧
      fnv1a32 [0x61, 0x62, 0x63] = 0x1A47E90B :=
  ⟨rfl, C5_hash_abc true (worldOf [0x61, 0x62, 0x63] 255) "abc.txt" rfl⟩

/-- C6: evaluation of repeated calls of `truct__hash_file` on one unchanged
file with the bytes `0x61, 0x62, 0x63`, in a process that has 3 of its 1024
streams open.  The first call and the call after 1020 earlier ones return
`0x1A47E90B`; the call after 1021 earlier ones returns `0`: every call leaves
the stream of line 76 open, and then `fopen` fails. -/
theorem C6_repeated_calls_exhaust_streams :
    Option.map HashOutcome.digest (hashAgain true "abc.txt" 0 (worldOf [0x61, 0x62, 0x63] 0))
        = some 0x1A47E90B ∧
      Option.map HashOutcome.digest
        (hashAgain true "abc.txt" 1020 (worldOf [0x61, 0x62, 0x63] 0)) = some 0x1A47E90B ∧
      Option.map HashOutcome.digest
        (hashAgain true "abc.txt" 1021 (worldOf [0x61, 0x62, 0x63] 0)) = some 0 := by
  have hfold : ([0x61, 0x62, 0x63] : List Byte).foldl (fnvStep true) 0x811C9DC5
      = 0x1A47E90B := by decide
  have h := fun n => hashAgain_spec true "abc.txt"
    { data := [0x61, 0x62, 0x63], st_size := some 3 } rfl n (worldOf [0x61, 0x62, 0x63] 0) rfl
  refine ⟨?_, ?_, (h 1021).2 (by decide)⟩
  · rw [← hfold]
    exact (h 0).1 (by decide)
  · rw [← hfold]
    exact (h 1020).1 (by decide)

/-- C7: evaluation of the POSIX branch of `truct__get_file_write_time` on a path
that `stat` cannot read, with the local `struct stat` holding `tv_sec = 1`,
`tv_nsec = 0` beforehand: the call returns `1000000000`, not `0`.  The `_WIN32`
branch returns `0` on a path it cannot open. -/
theorem C7_posix_branch_ignores_stat_failure :
    stat (fun _ => none) "missing" { tv_sec := 1, tv_nsec := 0 }
        = (-1, { tv_sec := 1, tv_nsec := 0 }) ∧
      truct__get_file_write_time_posix (fun _ => none) "missing" { tv_sec := 1, tv_nsec := 0 }
        = 1000000000 ∧
      (truct__get_file_write_time_win32
        { CreateFileA := fun _ => none, GetFileTime := fun _ => none } [] "missing").1 = 0 := by
  refine ⟨rfl, by decide, by decide⟩

/-- C8: when the path cannot be opened, or it opens and `fstat` fails,
`truct__hash_file` returns normally with digest `0`; it prints one diagnostic,
leaves the scratch buffer and the files as they were, calls `fread` zero times
and performs zero hashing steps. -/
theorem C8_hash_file_failure_returns_zero (charSigned : Bool) (w : World) (filename : String)
    (h : fopen w filename "r" = none ∨
      ∃ file, fopen w filename "r" = some file ∧ fstat file = none) :
    ∃ r msg, truct__hash_file charSigned w filename = some r ∧ r.digest = 0 ∧
      r.world.temporary_buffer = w.temporary_buffer ∧ r.world.files = w.files ∧
      r.world.stderr = w.stderr ++ [msg] ∧ r.freads = 0 ∧ r.steps = 0 := by
  rcases h with h | ⟨file, h, h'⟩
  · refine ⟨{ digest := 0, world := eprint w ("Could not read file: " ++ filename ++ "\n"),
              freads := 0, steps := 0 }, "Could not read file: " ++ filename ++ "\n",
      ?_, rfl, rfl, rfl, rfl, rfl, rfl⟩
    simp only [truct__hash_file, hash_file_with, h]
  · refine ⟨{ digest := 0,
              world := eprint (opened w)
                ("Could not figure out file size: " ++ filename ++ "\n"),
              freads := 0, steps := 0 }, "Could not figure out file size: " ++ filename ++ "\n",
      ?_, rfl, rfl, rfl, rfl, rfl, rfl⟩
    simp only [truct__hash_file, hash_file_with, h, h']

/-- C8 at a concrete input: a path in a world without files. -/
theorem C8_hash_file_failure_returns_zero_witness :
    (fopen emptyWorld "missing" "r" = none ∨
      ∃ file, fopen emptyWorld "missing" "r" = some file ∧ fstat file = none) ∧
    ∃ r msg, truct__hash_file true emptyWorld "missing" = some r ∧ r.digest = 0 ∧
      r.world.temporary_buffer = emptyWorld.temporary_buffer ∧
      r.world.files = emptyWorld.files ∧
      r.world.stderr = emptyWorld.stderr ++ [msg] ∧ r.freads = 0 ∧ r.steps = 0 :=
  ⟨Or.inl rfl, C8_hash_file_failure_returns_zero true emptyWorld "missing" (Or.inl rfl)⟩

/-- C9: when the input cannot be opened, `truct__embed_file` returns after
printing one diagnostic; no path changes, so the output path holds what it
held before (nothing, or its previous bytes), and no path becomes or stops
being writable. -/
theorem C9_embed_unopenable_input (w : World) (input output : String)
    (h : fopen w input "rb" = none) :
    ∃ w', truct__embed_file w input output = some w' ∧ w'.files output = w.files output ∧
      w'.files = w.files ∧ w'.writable = w.writable ∧
      w'.temporary_buffer = w.temporary_buffer ∧
      w'.stderr = w.stderr ++ ["Error opening file: " ++ input ++ "\n"] :=
  ⟨eprint w ("Error opening file: " ++ input ++ "\n"),
    by simp only [truct__embed_file, h], rfl, rfl, rfl, rfl, rfl⟩

/-- C9 at a concrete input: the input is missing and the output path names an existing file. -/
theorem C9_embed_unopenable_input_witness :
    fopen (worldWith "a.bin" [1]) "b.bin" "rb" = none ∧
    ∃ w', truct__embed_file (worldWith "a.bin" [1]) "b.bin" "a.bin" = some w' ∧
      w'.files "a.bin" = (worldWith "a.bin" [1]).files "a.bin" ∧
      w'.files = (worldWith "a.bin" [1]).files ∧
      w'.writable = (worldWith "a.bin" [1]).writable ∧
      w'.temporary_buffer = (worldWith "a.bin" [1]).temporary_buffer ∧
      w'.stderr = (worldWith "a.bin" [1]).stderr ++ ["Error opening file: " ++ "b.bin" ++ "\n"] :=
  ⟨by decide, C9_embed_unopenable_input (worldWith "a.bin" [1]) "b.bin" "a.bin" (by decide)⟩

/-- C10: on the POSIX branch, for two modification times of a file with
`0 ≤ tv_nsec < 10^9`, `0 ≤ tv_sec` and `tv_sec * 10^9 + tv_nsec < 2^64`, the
lexicographically smaller one gives the strictly smaller returned value, and
the returned value is `tv_sec * 10^9 + tv_nsec`; on the `_WIN32` branch, for
two tick counts below `2^64` stored as `FILETIME` halves, the smaller count
gives the strictly smaller returned value. -/
theorem C10_timestamp_order_preserving (filename : String) :
    (∀ (os1 os2 : String → Option timespec) (s1 s2 m1 m2 : timespec),
      os1 filename = some m1 → os2 filename = some m2 →
      0 ≤ m1.tv_sec → 0 ≤ m1.tv_nsec → m1.tv_nsec < 1000000000 →
      m1.tv_sec * 1000000000 + m1.tv_nsec < 18446744073709551616 →
      0 ≤ m2.tv_sec → 0 ≤ m2.tv_nsec → m2.tv_nsec < 1000000000 →
      m2.tv_sec * 1000000000 + m2.tv_nsec < 18446744073709551616 →
      (m1.tv_sec < m2.tv_sec ∨ (m1.tv_sec = m2.tv_sec ∧ m1.tv_nsec < m2.tv_nsec)) →
      truct__get_file_write_time_posix os1 filename s1
          < truct__get_file_write_time_posix os2 filename s2 ∧
        (truct__get_file_write_time_posix os1 filename s1 : Int)
          = m1.tv_sec * 1000000000 + m1.tv_nsec) ∧
    (∀ (os1 os2 : Win32) (e1 e2 : List String) (h1 h2 : Nat) (t1 t2 : Nat),
      os1.CreateFileA filename = some h1 → os1.GetFileTime h1 = some (FILETIME.ofTicks t1) →
      os2.CreateFileA filename = some h2 → os2.GetFileTime h2 = some (FILETIME.ofTicks t2) →
      t1 < t2 → t2 < 18446744073709551616 →
      (truct__get_file_write_time_win32 os1 e1 filename).1
          < (truct__get_file_write_time_win32 os2 e2 filename).1 ∧
        (truct__get_file_write_time_win32 os1 e1 filename).1 = t1) := by
  constructor
  · intro os1 os2 s1 s2 m1 m2 ho1 ho2 hs1 hn1 hb1 hf1 hs2 hn2 hb2 hf2 hlex
    have e1 := posix_time_of_stat os1 filename s1 m1 ho1 hs1 hn1 hf1
    have e2 := posix_time_of_stat os2 filename s2 m2 ho2 hs2 hn2 hf2
    refine ⟨?_, e1⟩
    have : (truct__get_file_write_time_posix os1 filename s1 : Int)
        < (truct__get_file_write_time_posix os2 filename s2 : Int) := by
      rw [e1, e2]
      rcases hlex with hlt | ⟨heq, hlt⟩
      · omega
      · omega
    exact_mod_cast this
  · intro os1 os2 e1 e2 h1 h2 t1 t2 hc1 hg1 hc2 hg2 hlt hb
    have q1 := QuadPart_ofTicks t1 (by omega)
    have q2 := QuadPart_ofTicks t2 hb
    simp only [truct__get_file_write_time_win32, hc1, hg1, hc2, hg2, q1, q2]
    exact ⟨hlt, trivial⟩

/-- C10 at concrete inputs: a second boundary on the POSIX branch and a carry
into the high half on the other branch. -/
theorem C10_timestamp_order_preserving_witness :
    truct__get_file_write_time_posix (fun _ => some { tv_sec := 5, tv_nsec := 999999999 }) "f"
        { tv_sec := 0, tv_nsec := 0 }
      < truct__get_file_write_time_posix (fun _ => some { tv_sec := 6, tv_nsec := 0 }) "f"
        { tv_sec := 0, tv_nsec := 0 } ∧
    (truct__get_file_write_time_win32
        { CreateFileA := fun _ => some 1,
          GetFileTime := fun _ => some (FILETIME.ofTicks 4294967295) } [] "f").1
      < (truct__get_file_write_time_win32
        { CreateFileA := fun _ => some 1,
          GetFileTime := fun _ => some (FILETIME.ofTicks 4294967296) } [] "f").1 :=
  ⟨((C10_timestamp_order_preserving "f").1
      (fun _ => some { tv_sec := 5, tv_nsec := 999999999 })
      (fun _ => some { tv_sec := 6, tv_nsec := 0 })
      { tv_sec := 0, tv_nsec := 0 } { tv_sec := 0, tv_nsec := 0 }
      { tv_sec := 5, tv_nsec := 999999999 } { tv_sec := 6, tv_nsec := 0 }
      rfl rfl (by decide) (by decide) (by decide) (by decide) (by decide) (by decide)
      (by decide) (by decide) (Or.inl (by decide))).1,
   ((C10_timestamp_order_preserving "f").2
      { CreateFileA := fun _ => some 1,
        GetFileTime := fun _ => some (FILETIME.ofTicks 4294967295) }
      { CreateFileA := fun _ => some 1,
        GetFileTime := fun _ => some (FILETIME.ofTicks 4294967296) }
      [] [] 1 1 4294967295 4294967296 rfl rfl rfl rfl (by decide) (by decide)).1⟩

end Truct
